import Mathlib

/-!
Verification of the document-ingestion pipeline in
`backend/packages/agent-executor/agent_executor/upload.py`.

The external collaborators (base64 decoder, mime detector, parser, text
splitter, vector store) are opaque in the source as well; they appear here as
function parameters. The batching loop `ingest_blob`, its asynchronous variant
`aingest_blob`, the metadata tagger `_update_document_metadata`, the mime
guesser `_guess_mimetype` and the entrypoint `IngestRunnable.invoke` are
embedded faithfully from the source.
-/

/-- A parsed text document: page content plus a string-keyed metadata mapping,
modelled as an association list with at most one binding per key, as a Python
dict. -/
structure Document where
  pageContent : String
  metadata : List (String × String)
deriving DecidableEq

/-- Python dict assignment `md[k] = v`: replace the value at an existing key,
otherwise add the binding at the end. -/
def metaSet (md : List (String × String)) (k v : String) : List (String × String) :=
  if md.any (fun p => p.1 == k) then
    md.map (fun p => if p.1 == k then (k, v) else p)
  else md ++ [(k, v)]

/-- Python dict lookup `md.get(k)`. -/
def metaGet (md : List (String × String)) (k : String) : Option String :=
  (md.find? (fun p => p.1 == k)).map (fun p => p.2)

/-- `_update_document_metadata(document, namespace)`: sets the document's
`"namespace"` metadata entry to `ns`. The Python mutates the document in
place; the embedding returns the updated document. -/
def updateDocumentMetadata (d : Document) (ns : String) : Document :=
  { d with metadata := metaSet d.metadata "namespace" ns }

/-- Observable outcome of one run of the batching ingester.
`calls` is the trace of batches passed to `vectorstore.add_documents`, in call
order (a batch on which the add operation raised is still recorded: the call
was made). `res` is the returned identifier list, or the propagated error.
`leftover` holds the chunks that sat in the pending buffer when the run
returned normally without sending them. `remaining` holds the parsed documents
never consumed from the input sequence (nonempty only when an add call
raised mid-sequence). -/
structure Run (ε : Type) where
  calls : List (List Document)
  res : Except ε (List String)
  leftover : List Document
  remaining : List Document

/-- The loop of `ingest_blob`: `buf` is `docs_to_index`, `ids` the accumulated
identifier list. Each parsed document is split, every chunk is tagged with the
namespace, the chunks are appended to the buffer, and the buffer is flushed
whenever `len(docs_to_index) >= batch_size`. After the sequence is exhausted
the trailing flush fires only under the same condition, exactly as in the
source. -/
def ingestGo {ε : Type} (split : Document → List Document)
    (add : List Document → Except ε (List String)) (ns : String) (batchSize : Nat) :
    List Document → List Document → List String → Run ε
  | [], buf, ids =>
    if batchSize ≤ buf.length then
      match add buf with
      | .ok newIds => ⟨[buf], .ok (ids ++ newIds), [], []⟩
      | .error e => ⟨[buf], .error e, [], []⟩
    else ⟨[], .ok ids, buf, []⟩
  | d :: rest, buf, ids =>
    let chunks := (split d).map (fun c => updateDocumentMetadata c ns)
    let buf2 := buf ++ chunks
    if batchSize ≤ buf2.length then
      match add buf2 with
      | .ok newIds =>
        let r := ingestGo split add ns batchSize rest [] (ids ++ newIds)
        ⟨buf2 :: r.calls, r.res, r.leftover, r.remaining⟩
      | .error e => ⟨[buf2], .error e, buf2, rest⟩
    else ingestGo split add ns batchSize rest buf2 ids

/-- `ingest_blob(blob, parser, text_splitter, vectorstore, namespace,
batch_size)`: the parser's lazy sequence `parser.lazy_parse(blob)` appears as
the list `docs`. -/
def ingestBlob {ε : Type} (split : Document → List Document)
    (add : List Document → Except ε (List String)) (ns : String) (batchSize : Nat)
    (docs : List Document) : Run ε :=
  ingestGo split add ns batchSize docs [] []

/-- The loop of `aingest_blob`. The source computes and tags the chunks of each
document but never appends them to `docs_to_index` (the `extend` call present
in the synchronous variant is missing), so the buffer checked against the
threshold is whatever it already was — initially empty. -/
def aingestGo {ε : Type} (split : Document → List Document)
    (add : List Document → Except ε (List String)) (ns : String) (batchSize : Nat) :
    List Document → List Document → List String → Run ε
  | [], buf, ids =>
    if batchSize ≤ buf.length then
      match add buf with
      | .ok newIds => ⟨[buf], .ok (ids ++ newIds), [], []⟩
      | .error e => ⟨[buf], .error e, [], []⟩
    else ⟨[], .ok ids, buf, []⟩
  | d :: rest, buf, ids =>
    let _chunks := (split d).map (fun c => updateDocumentMetadata c ns)
    if batchSize ≤ buf.length then
      match add buf with
      | .ok newIds =>
        let r := aingestGo split add ns batchSize rest [] (ids ++ newIds)
        ⟨buf :: r.calls, r.res, r.leftover, r.remaining⟩
      | .error e => ⟨[buf], .error e, buf, rest⟩
    else aingestGo split add ns batchSize rest buf ids

/-- `aingest_blob`, on the parsed sequence `docs`. -/
def aingestBlob {ε : Type} (split : Document → List Document)
    (add : List Document → Except ε (List String)) (ns : String) (batchSize : Nat)
    (docs : List Document) : Run ε :=
  aingestGo split add ns batchSize docs [] []

/-- Raw byte payloads, abstract. -/
abbrev Bytes := List Nat

/-- `_guess_mimetype(file_bytes)`: `import magic` either succeeds — modelled by
`magicAvailable = true`, with `magicFromBuffer` the library's detector — or
raises an ImportError with the message below. -/
def guessMimetype (magicAvailable : Bool) (magicFromBuffer : Bytes → String)
    (fileBytes : Bytes) : Except String String :=
  if magicAvailable then .ok (magicFromBuffer fileBytes)
  else .error "magic package not found, please install it with `pip install python-magic`"

/-- `IngestionInput`: mandatory base64 payload, optional filename. -/
structure IngestionInput where
  base64File : String
  filename : Option String

/-- `Blob`: raw bytes, optional path, detected mime type. -/
structure Blob where
  data : Bytes
  path : Option String
  mimetype : String

/-- `IngestionOutput`: the success flag returned by the entrypoint. -/
structure IngestionOutput where
  success : Bool
deriving DecidableEq

/-- One collaborator operation performed during a call of the entrypoint. -/
inductive WorkStep where
  | decodeStep
  | mimeStep
  | parseStep
  | addStep
deriving DecidableEq

/-- `_convert_ingestion_input_to_blob(input)`: decode the base64 payload, guess
the mime type (this can raise), build the blob. -/
def convertIngestionInputToBlob (decodebytes : String → Bytes) (magicAvailable : Bool)
    (magicFromBuffer : Bytes → String) (input : IngestionInput) : Except String Blob :=
  let fileData := decodebytes input.base64File
  match guessMimetype magicAvailable magicFromBuffer fileData with
  | .error e => .error e
  | .ok mimetype => .ok ⟨fileData, input.filename, mimetype⟩

/-- `IngestRunnable.invoke(input)`: raise a ValueError when the configured
namespace is falsy (the empty string, also the field's default), else convert
the input to a blob and delegate to `ingest_blob` with the default batch size
100, discarding the identifiers and returning a success flag. Besides the
result, the embedding returns the trace of collaborator operations performed
(the base64 decoding, the mime detection, the parse, one entry per
vector-store add call), so that "no work happens before the namespace check"
is a statement about the model. -/
def invoke (decodebytes : String → Bytes) (magicAvailable : Bool)
    (magicFromBuffer : Bytes → String) (lazyParse : Blob → List Document)
    (split : Document → List Document)
    (add : List Document → Except String (List String))
    (ns : String) (input : IngestionInput) :
    List WorkStep × Except String IngestionOutput :=
  if ns = "" then ([], .error "namespace must be provided")
  else
    match convertIngestionInputToBlob decodebytes magicAvailable magicFromBuffer input with
    | .error e => ([.decodeStep, .mimeStep], .error e)
    | .ok blob =>
      let r := ingestBlob split add ns 100 (lazyParse blob)
      let steps := [WorkStep.decodeStep, .mimeStep, .parseStep] ++
        r.calls.map (fun _ => WorkStep.addStep)
      match r.res with
      | .error e => (steps, .error e)
      | .ok _ => (steps, .ok ⟨true⟩)

/-- All chunks the ingestion derives from the parsed documents, in order: each
document split, each chunk tagged with the namespace. -/
def allChunks (split : Document → List Document) (ns : String) (docs : List Document) :
    List Document :=
  (docs.map (fun d => (split d).map (fun c => updateDocumentMetadata c ns))).flatten

/-- An add operation that always succeeds, returning `f batch` as the
identifier list. -/
def okAdd (f : List Document → List String) : List Document → Except String (List String) :=
  fun batch => .ok (f batch)

/-- State of the spec's description of the batching loop: the pending buffer,
the identifiers collected so far, the flushes performed so far in flush
order. -/
structure SpecState where
  buffer : List Document
  results : List String
  flushes : List (List Document)

/-- Written from the spec's words, for comparison with `ingestBlob`
(section 4.1): for each parsed document, split it, set each chunk's namespace
metadata, append the chunks to the pending buffer; if the buffer size is
greater than or equal to the batch size, send the entire buffer to the bulk-add
operation, append the returned identifiers to the result list, and clear the
buffer. -/
def specProcessDoc {ε : Type} (split : Document → List Document)
    (add : List Document → Except ε (List String)) (ns : String) (batchSize : Nat)
    (st : SpecState) (d : Document) : Except ε SpecState :=
  let chunks := (split d).map (fun c => updateDocumentMetadata c ns)
  let buf := st.buffer ++ chunks
  if batchSize ≤ buf.length then
    (add buf).map (fun newIds => ⟨[], st.results ++ newIds, st.flushes ++ [buf]⟩)
  else .ok ⟨buf, st.results, st.flushes⟩

/-- Written from the spec's words, for comparison with `ingestBlob`
(section 4.1): after the input sequence is exhausted, a final flush is
attempted under the same buffer-size condition. -/
def specFinalFlush {ε : Type} (add : List Document → Except ε (List String))
    (batchSize : Nat) (st : SpecState) : Except ε (List String × List (List Document)) :=
  if batchSize ≤ st.buffer.length then
    (add st.buffer).map (fun newIds => (st.results ++ newIds, st.flushes ++ [st.buffer]))
  else .ok (st.results, st.flushes)

/-- Written from the spec's words, for comparison with `ingestBlob`
(section 4.1): fold the per-document step over the input sequence, then attempt
one final flush under the same size condition; the output is the flat
identifier list of all successful flushes, in flush order, paired with the
flushed batches. -/
def specBatchingIngester {ε : Type} (split : Document → List Document)
    (add : List Document → Except ε (List String)) (ns : String) (batchSize : Nat)
    (docs : List Document) : Except ε (List String × List (List Document)) :=
  docs.foldlM (specProcessDoc split add ns batchSize) ⟨[], [], []⟩ >>=
    specFinalFlush add batchSize

/-- Concrete one-character document used in counterexamples and witnesses. -/
def docA : Document := ⟨"A", []⟩

/-- Concrete two-character document used in counterexamples and witnesses. -/
def docB : Document := ⟨"BB", []⟩

/-- Concrete splitter: a one-character document splits into three chunks,
anything else into a single chunk. -/
def splitCE : Document → List Document := fun d =>
  if d.pageContent.length = 1 then
    [⟨d.pageContent ++ "1", []⟩, ⟨d.pageContent ++ "2", []⟩, ⟨d.pageContent ++ "3", []⟩]
  else [d]

/-- Concrete splitter returning the document unchanged as its single chunk, the
behaviour of the default recursive character splitter on text shorter than the
chunk size. -/
def splitOne : Document → List Document := fun d => [d]

/-- Concrete identifier generator: a batch's identifiers are its page
contents. -/
def idsCE : List Document → List String := fun b => b.map (fun d => d.pageContent)

/-- An add operation that always raises. -/
def addFail : List Document → Except String (List String) := fun _ => .error "boom"

/-- The single document the text parser produces for the contents of the
end-to-end scenario's upload. -/
def testFileDoc : Document := ⟨"This is a test file.", []⟩

/-- Dict assignment then lookup at the same key yields the assigned value,
whatever binding the key had before. -/
lemma metaGet_metaSet (md : List (String × String)) (k v : String) :
    metaGet (metaSet md k v) k = some v := by
  unfold metaSet metaGet
  split
  next hany =>
    induction md with
    | nil => simp at hany
    | cons p t ih =>
      simp only [List.any_cons, Bool.or_eq_true] at hany
      by_cases hp : (p.1 == k) = true
      · have hp' : p.1 = k := by simpa using hp
        rw [List.map_cons, if_pos hp, List.find?_cons_of_pos]
        · rfl
        · simp
      · have ht : t.any (fun q => q.1 == k) = true := by
          rcases hany with h | h
          · exact absurd h hp
          · exact h
        rw [List.map_cons, if_neg hp, List.find?_cons_of_neg]
        · exact ih ht
        · exact hp
  next hany =>
    have hnone : md.find? (fun q => q.1 == k) = none := by
      rw [List.find?_eq_none]
      intro x hx hpx
      exact hany (List.any_eq_true.mpr ⟨x, hx, hpx⟩)
    rw [List.find?_append, hnone]
    simp

/-- A run whose add operation always succeeds: the flushed batches followed by
the unsent leftover are exactly the buffered chunks followed by all chunks of
the documents, the result is the accumulated identifiers followed by the
identifiers of the flushed batches in flush order, and the whole input
sequence is consumed. -/
lemma ingestGo_okAdd (split : Document → List Document) (f : List Document → List String)
    (ns : String) (bs : Nat) (docs : List Document) :
    ∀ (buf : List Document) (ids : List String),
      ((ingestGo split (okAdd f) ns bs docs buf ids).calls.flatten ++
          (ingestGo split (okAdd f) ns bs docs buf ids).leftover =
        buf ++ allChunks split ns docs) ∧
      (ingestGo split (okAdd f) ns bs docs buf ids).res =
        .ok (ids ++ ((ingestGo split (okAdd f) ns bs docs buf ids).calls.map f).flatten) ∧
      (ingestGo split (okAdd f) ns bs docs buf ids).remaining = [] := by
  induction docs with
  | nil =>
    intro buf ids
    by_cases h : bs ≤ buf.length <;>
      simp [ingestGo, okAdd, allChunks, h]
  | cons d rest ih =>
    intro buf ids
    by_cases h : bs ≤ (buf ++ (split d).map (fun c => updateDocumentMetadata c ns)).length
    · obtain ⟨ih1, ih2, ih3⟩ :=
        ih [] (ids ++ f (buf ++ (split d).map (fun c => updateDocumentMetadata c ns)))
      simp only [List.nil_append] at ih1
      simp only [ingestGo, okAdd, h, if_true, if_pos, List.flatten_cons, List.map_cons,
        allChunks, List.append_assoc]
      simp only [allChunks] at ih1
      refine ⟨?_, ?_, ih3⟩
      · rw [ih1]
      · rw [ih2]
        simp [List.append_assoc]
    · obtain ⟨ih1, ih2, ih3⟩ :=
        ih (buf ++ (split d).map (fun c => updateDocumentMetadata c ns)) ids
      simp only [ingestGo, okAdd, h, if_false, if_neg, allChunks, List.map_cons,
        List.flatten_cons]
      simp only [allChunks] at ih1
      refine ⟨?_, ih2, ih3⟩
      rw [ih1, List.append_assoc]

/-- Every batch the loop passes to the add operation consists of documents
whose `"namespace"` metadata is the call's namespace, provided the pending
buffer already satisfies this — which the empty initial buffer does. -/
lemma ingestGo_calls_tagged {ε : Type} (split : Document → List Document)
    (add : List Document → Except ε (List String)) (ns : String) (bs : Nat)
    (docs : List Document) :
    ∀ (buf : List Document) (ids : List String),
      (∀ c ∈ buf, metaGet c.metadata "namespace" = some ns) →
      ∀ b ∈ (ingestGo split add ns bs docs buf ids).calls, ∀ c ∈ b,
        metaGet c.metadata "namespace" = some ns := by
  induction docs with
  | nil =>
    intro buf ids hbuf b hb c hc
    by_cases h : bs ≤ buf.length
    · have hbbuf : b = buf := by
        cases hadd : add buf <;> simp [ingestGo, h, hadd] at hb <;> exact hb
      exact hbuf c (hbbuf ▸ hc)
    · simp [ingestGo, h] at hb
  | cons d rest ih =>
    intro buf ids hbuf
    have hchunks : ∀ c ∈ (split d).map (fun c => updateDocumentMetadata c ns),
        metaGet c.metadata "namespace" = some ns := by
      intro c hc
      simp only [List.mem_map] at hc
      obtain ⟨c0, _, rfl⟩ := hc
      simpa [updateDocumentMetadata] using metaGet_metaSet c0.metadata "namespace" ns
    have hbuf2 : ∀ c ∈ buf ++ (split d).map (fun c => updateDocumentMetadata c ns),
        metaGet c.metadata "namespace" = some ns := by
      intro c hc
      rcases List.mem_append.mp hc with h' | h'
      · exact hbuf c h'
      · exact hchunks c h'
    by_cases h : bs ≤ (buf ++ (split d).map (fun c => updateDocumentMetadata c ns)).length
    · cases hadd : add (buf ++ (split d).map (fun c => updateDocumentMetadata c ns)) with
      | ok newIds =>
        intro b hb c hc
        simp only [ingestGo, h, if_pos, hadd, List.mem_cons] at hb
        rcases hb with rfl | hb
        · exact hbuf2 c hc
        · exact ih [] (ids ++ newIds) (by simp) b hb c hc
      | error e =>
        intro b hb c hc
        simp only [ingestGo, h, if_pos, hadd, List.mem_singleton] at hb
        exact hbuf2 c (hb ▸ hc)
    · intro b hb c hc
      simp only [ingestGo, h, if_neg, if_false] at hb
      exact ih _ ids hbuf2 b hb c hc

/-- Every batch the loop passes to the add operation has at least `batchSize`
documents: every flush site, the trailing one included, is guarded by the
size test. -/
lemma ingestGo_calls_ge {ε : Type} (split : Document → List Document)
    (add : List Document → Except ε (List String)) (ns : String) (bs : Nat)
    (docs : List Document) :
    ∀ (buf : List Document) (ids : List String),
      ∀ b ∈ (ingestGo split add ns bs docs buf ids).calls, bs ≤ b.length := by
  induction docs with
  | nil =>
    intro buf ids b hb
    by_cases h : bs ≤ buf.length
    · have hbbuf : b = buf := by
        cases hadd : add buf <;> simp [ingestGo, h, hadd] at hb <;> exact hb
      exact hbbuf ▸ h
    · simp [ingestGo, h] at hb
  | cons d rest ih =>
    intro buf ids b hb
    by_cases h : bs ≤ (buf ++ (split d).map (fun c => updateDocumentMetadata c ns)).length
    · cases hadd : add (buf ++ (split d).map (fun c => updateDocumentMetadata c ns)) with
      | ok newIds =>
        simp only [ingestGo, h, if_pos, hadd, List.mem_cons] at hb
        rcases hb with rfl | hb
        · exact h
        · exact ih [] (ids ++ newIds) b hb
      | error e =>
        simp only [ingestGo, h, if_pos, hadd, List.mem_singleton] at hb
        exact hb ▸ h
    · simp only [ingestGo, h, if_neg, if_false] at hb
      exact ih _ ids b hb

/-- When every parsed document splits into exactly one chunk and the pending
buffer is below the threshold, the loop performs one flush of exactly
`bs` documents every `bs` chunks: the flush sizes are
`(buf.length + docs.length) / bs` copies of `bs`. -/
lemma ingestGo_singleton (split : Document → List Document) (f : List Document → List String)
    (ns : String) (bs : Nat) (docs : List Document) :
    (∀ d ∈ docs, (split d).length = 1) →
    ∀ (buf : List Document) (ids : List String), buf.length < bs →
      (ingestGo split (okAdd f) ns bs docs buf ids).calls.map List.length =
        List.replicate ((buf.length + docs.length) / bs) bs := by
  induction docs with
  | nil =>
    intro _ buf ids hlt
    have h : ¬ bs ≤ buf.length := not_le.mpr hlt
    simp [ingestGo, h, Nat.div_eq_of_lt hlt]
  | cons d rest ih =>
    intro hsplit buf ids hlt
    have hd : (split d).length = 1 := hsplit d (List.mem_cons_self d rest)
    have hrest : ∀ x ∈ rest, (split x).length = 1 :=
      fun x hx => hsplit x (List.mem_cons_of_mem d hx)
    have hlen : (buf ++ (split d).map (fun c => updateDocumentMetadata c ns)).length
        = buf.length + 1 := by simp [hd]
    by_cases h : bs ≤ (buf ++ (split d).map (fun c => updateDocumentMetadata c ns)).length
    · have heq : buf.length + 1 = bs := by omega
      have hbs : 0 < bs := by omega
      have ihr := ih hrest []
        (ids ++ f (buf ++ (split d).map (fun c => updateDocumentMetadata c ns)))
        (by simpa using hbs)
      have harith : (buf.length + (rest.length + 1)) / bs = rest.length / bs + 1 := by
        have : buf.length + (rest.length + 1) = rest.length + bs := by omega
        rw [this, Nat.add_div_right _ hbs]
      simp only [ingestGo, okAdd, h, if_pos, List.map_cons, List.length_cons]
      simp only [List.length_nil, Nat.zero_add] at ihr
      rw [ihr, harith, List.replicate_succ, hlen, heq]
    · have hlt2 : (buf ++ (split d).map (fun c => updateDocumentMetadata c ns)).length < bs :=
        not_le.mp h
      have ihr := ih hrest (buf ++ (split d).map (fun c => updateDocumentMetadata c ns)) ids hlt2
      simp only [ingestGo, okAdd, h, if_neg, if_false, List.length_cons]
      rw [ihr, hlen]
      have : buf.length + 1 + rest.length = buf.length + (rest.length + 1) := by omega
      rw [this]

/-- When the run ends in an error, the call trace is a block of successful
flushes followed by the single failing call, the propagated error is exactly
what the add operation returned there, and the unconsumed documents form a
suffix of the input sequence. -/
lemma ingestGo_error {ε : Type} (split : Document → List Document)
    (add : List Document → Except ε (List String)) (ns : String) (bs : Nat)
    (docs : List Document) :
    ∀ (buf : List Document) (ids : List String) (e : ε),
      (ingestGo split add ns bs docs buf ids).res = .error e →
      ∃ pre bad, (ingestGo split add ns bs docs buf ids).calls = pre ++ [bad] ∧
        add bad = .error e ∧ (∀ b ∈ pre, ∃ out, add b = .ok out) ∧
        List.IsSuffix (ingestGo split add ns bs docs buf ids).remaining docs := by
  induction docs with
  | nil =>
    intro buf ids e hres
    by_cases h : bs ≤ buf.length
    · cases hadd : add buf with
      | ok newIds => simp [ingestGo, h, hadd] at hres
      | error e' =>
        have he : e' = e := by
          simp only [ingestGo, h, if_pos, hadd] at hres
          exact Except.error.inj hres
        refine ⟨[], buf, ?_, ?_, ?_, ?_⟩
        · simp [ingestGo, h, hadd]
        · rw [hadd, he]
        · intro b hb; simp at hb
        · simp [ingestGo, h, hadd]
    · simp [ingestGo, h] at hres
  | cons d rest ih =>
    intro buf ids e hres
    by_cases h : bs ≤ (buf ++ (split d).map (fun c => updateDocumentMetadata c ns)).length
    · cases hadd : add (buf ++ (split d).map (fun c => updateDocumentMetadata c ns)) with
      | ok newIds =>
        simp only [ingestGo, h, if_pos, hadd] at hres ⊢
        obtain ⟨pre, bad, hcalls, hbad, hpre, hsuf⟩ := ih [] (ids ++ newIds) e hres
        refine ⟨(buf ++ (split d).map (fun c => updateDocumentMetadata c ns)) :: pre, bad,
          ?_, hbad, ?_, ?_⟩
        · rw [hcalls]; rfl
        · intro b hb
          rcases List.mem_cons.mp hb with rfl | hb
          · exact ⟨newIds, hadd⟩
          · exact hpre b hb
        · exact hsuf.trans (List.suffix_cons d rest)
      | error e' =>
        have he : e' = e := by
          simp only [ingestGo, h, if_pos, hadd] at hres
          exact Except.error.inj hres
        refine ⟨[], buf ++ (split d).map (fun c => updateDocumentMetadata c ns), ?_, ?_, ?_, ?_⟩
        · simp only [ingestGo, h, if_pos, hadd, List.nil_append]
        · rw [hadd, he]
        · intro b hb; simp at hb
        · simp only [ingestGo, h, if_pos, hadd]
          exact List.suffix_cons d rest
    · simp only [ingestGo, h, if_neg, if_false] at hres ⊢
      obtain ⟨pre, bad, hcalls, hbad, hpre, hsuf⟩ := ih _ ids e hres
      exact ⟨pre, bad, hcalls, hbad, hpre, hsuf.trans (List.suffix_cons d rest)⟩

/-- The asynchronous loop started on an empty buffer leaves the buffer empty
forever: no flush condition with a positive batch size can fire, so no add
call is made and the accumulated identifiers are returned unchanged. -/
lemma aingestGo_empty_buffer {ε : Type} (split : Document → List Document)
    (add : List Document → Except ε (List String)) (ns : String) (bs : Nat)
    (hbs : 1 ≤ bs) (docs : List Document) :
    ∀ ids : List String,
      aingestGo split add ns bs docs [] ids = ⟨[], .ok ids, [], []⟩ := by
  induction docs with
  | nil =>
    intro ids
    have h : ¬ bs ≤ ([] : List Document).length := by
      simp only [List.length_nil]
      omega
    simp only [aingestGo]
    rw [if_neg h]
  | cons d rest ih =>
    intro ids
    have h : ¬ bs ≤ ([] : List Document).length := by
      simp only [List.length_nil]
      omega
    simp only [aingestGo]
    rw [if_neg h]
    exact ih ids

/-- Bind on a successful Except computes the continuation. -/
lemma exceptBind_ok {ε α β : Type} (a : α) (f : α → Except ε β) :
    (Except.ok a >>= f) = f a := rfl

/-- Bind on a failed Except propagates the error. -/
lemma exceptBind_error {ε α β : Type} (e : ε) (f : α → Except ε β) :
    ((Except.error e : Except ε α) >>= f) = Except.error e := rfl

/-- The loop of the source agrees with the spec-worded fold: on success the
identifier lists coincide and the flushes recorded by the fold are the already
accumulated calls followed by the loop's calls; on failure both produce the
same error. -/
lemma ingestGo_matches_spec {ε : Type} (split : Document → List Document)
    (add : List Document → Except ε (List String)) (ns : String) (bs : Nat)
    (docs : List Document) :
    ∀ (buf : List Document) (ids : List String) (calls0 : List (List Document)),
      match docs.foldlM (specProcessDoc split add ns bs) (SpecState.mk buf ids calls0) >>=
          specFinalFlush add bs with
      | .ok out =>
          (ingestGo split add ns bs docs buf ids).res = .ok out.1 ∧
          calls0 ++ (ingestGo split add ns bs docs buf ids).calls = out.2
      | .error e => (ingestGo split add ns bs docs buf ids).res = .error e := by
  induction docs with
  | nil =>
    intro buf ids calls0
    simp only [List.foldlM_nil, pure_bind, specFinalFlush]
    by_cases h : bs ≤ buf.length
    · rw [if_pos h]
      cases hadd : add buf with
      | ok newIds =>
        simp only [Except.map, ingestGo, h, if_pos, hadd]
        exact ⟨trivial, trivial⟩
      | error e =>
        simp only [Except.map, ingestGo, h, if_pos, hadd]
    · rw [if_neg h]
      simp only [ingestGo, h, if_neg, if_false]
      exact ⟨trivial, by simp⟩
  | cons d rest ih =>
    intro buf ids calls0
    simp only [List.foldlM_cons, bind_assoc]
    by_cases h : bs ≤ (buf ++ (split d).map (fun c => updateDocumentMetadata c ns)).length
    · cases hadd : add (buf ++ (split d).map (fun c => updateDocumentMetadata c ns)) with
      | ok newIds =>
        have hstep : specProcessDoc split add ns bs ⟨buf, ids, calls0⟩ d =
            .ok ⟨[], ids ++ newIds,
              calls0 ++ [buf ++ (split d).map (fun c => updateDocumentMetadata c ns)]⟩ := by
          simp only [specProcessDoc]
          rw [if_pos h, hadd]
          rfl
        rw [hstep, exceptBind_ok]
        have ihr := ih [] (ids ++ newIds)
          (calls0 ++ [buf ++ (split d).map (fun c => updateDocumentMetadata c ns)])
        cases hspec : rest.foldlM (specProcessDoc split add ns bs)
            (SpecState.mk [] (ids ++ newIds)
              (calls0 ++ [buf ++ (split d).map (fun c => updateDocumentMetadata c ns)])) >>=
            specFinalFlush add bs with
        | ok out =>
          rw [hspec] at ihr
          simp only [ingestGo, h, if_pos, hadd]
          refine ⟨ihr.1, ?_⟩
          rw [← ihr.2]
          simp
        | error e =>
          rw [hspec] at ihr
          simp only [ingestGo, h, if_pos, hadd]
          exact ihr
      | error e =>
        have hstep : specProcessDoc split add ns bs ⟨buf, ids, calls0⟩ d =
            .error e := by
          simp only [specProcessDoc]
          rw [if_pos h, hadd]
          rfl
        rw [hstep, exceptBind_error]
        simp only [ingestGo, h, if_pos, hadd]
    · have hstep : specProcessDoc split add ns bs ⟨buf, ids, calls0⟩ d =
          .ok ⟨buf ++ (split d).map (fun c => updateDocumentMetadata c ns), ids, calls0⟩ := by
        simp only [specProcessDoc]
        rw [if_neg h]
      rw [hstep, exceptBind_ok]
      have ihr := ih (buf ++ (split d).map (fun c => updateDocumentMetadata c ns)) ids calls0
      simp only [ingestGo, h, if_neg, if_false]
      exact ihr

/-- C1: when the run of `ingest_blob` ends with a pending buffer that is
nonempty but below `batch_size`, those trailing chunks are exactly the ones
missing from the flushed batches (the flushed batches followed by the leftover
reconstruct the whole chunk stream), and the returned identifier list is built
only from the flushed batches, so the leftover chunks are never passed to the
add operation and contribute no identifiers. -/
theorem C1_trailing_partial_batch_dropped (split : Document → List Document)
    (f : List Document → List String) (ns : String) (bs : Nat) (docs : List Document)
    (hpos : 0 < (ingestBlob split (okAdd f) ns bs docs).leftover.length)
    (hlt : (ingestBlob split (okAdd f) ns bs docs).leftover.length < bs) :
    (ingestBlob split (okAdd f) ns bs docs).calls.flatten ++
        (ingestBlob split (okAdd f) ns bs docs).leftover = allChunks split ns docs ∧
    (ingestBlob split (okAdd f) ns bs docs).res =
      .ok (((ingestBlob split (okAdd f) ns bs docs).calls.map f).flatten) := by
  obtain ⟨h1, h2, h3⟩ := ingestGo_okAdd split f ns bs docs [] []
  exact ⟨by simpa using h1, by simpa using h2⟩

/-- C1 witness: one document splitting into one chunk, batch size two: the
chunk stays in the leftover, no call is made, the empty identifier list is
returned. -/
theorem C1_trailing_partial_batch_dropped_witness :
    0 < (ingestBlob splitCE (okAdd idsCE) "ns" 2 [docB]).leftover.length ∧
    (ingestBlob splitCE (okAdd idsCE) "ns" 2 [docB]).leftover.length < 2 ∧
    ((ingestBlob splitCE (okAdd idsCE) "ns" 2 [docB]).calls.flatten ++
        (ingestBlob splitCE (okAdd idsCE) "ns" 2 [docB]).leftover =
          allChunks splitCE "ns" [docB] ∧
      (ingestBlob splitCE (okAdd idsCE) "ns" 2 [docB]).res =
        .ok (((ingestBlob splitCE (okAdd idsCE) "ns" 2 [docB]).calls.map idsCE).flatten)) :=
  ⟨by decide, by decide,
    C1_trailing_partial_batch_dropped splitCE idsCE "ns" 2 [docB] (by decide) (by decide)⟩

/-- C2: invoking the entrypoint with the empty (or unset, since the field
defaults to empty) namespace fails with the configuration error before any
collaborator operation: the step trace is empty, so no base64 decoding, no
mime detection, no parsing and no vector-store add call happened. -/
theorem C2_empty_namespace_fails_before_work (decodebytes : String → Bytes)
    (magicAvailable : Bool) (magicFromBuffer : Bytes → String)
    (lazyParse : Blob → List Document) (split : Document → List Document)
    (add : List Document → Except String (List String)) (input : IngestionInput) :
    invoke decodebytes magicAvailable magicFromBuffer lazyParse split add "" input =
      ([], .error "namespace must be provided") := rfl

/-- C3: with a non-empty namespace, every document in every batch passed to the
vector store's add operation carries `"namespace"` metadata equal to that
namespace — hence non-empty — whatever metadata the chunk carried before
tagging. -/
theorem C3_persisted_chunks_carry_namespace {ε : Type} (split : Document → List Document)
    (add : List Document → Except ε (List String)) (ns : String) (bs : Nat)
    (docs : List Document) (hns : ns ≠ "") :
    ∀ b ∈ (ingestBlob split add ns bs docs).calls, ∀ c ∈ b,
      metaGet c.metadata "namespace" = some ns ∧ ns ≠ "" := by
  intro b hb c hc
  exact ⟨ingestGo_calls_tagged split add ns bs docs [] [] (by simp) b hb c hc, hns⟩

/-- C3 witness: batch size one forces a flush of the single tagged chunk; its
namespace metadata reads back as the supplied namespace. -/
theorem C3_persisted_chunks_carry_namespace_witness :
    metaGet (updateDocumentMetadata docB "test").metadata "namespace" = some "test" ∧
      "test" ≠ "" :=
  C3_persisted_chunks_carry_namespace splitCE (okAdd idsCE) "test" 1 [docB] (by decide)
    [updateDocumentMetadata docB "test"] (by decide) (updateDocumentMetadata docB "test")
    (by decide)

/-- C4 counterexample: with batch size 2, a document splitting into three
chunks followed by one splitting into one chunk yields four chunks in total —
exactly 2 × 2 — yet the loop makes a single add call carrying three documents,
not two calls of two documents each: the claim fails as stated. -/
theorem C4_chunk_multiple_counterexample :
    (allChunks splitCE "ns" [docA, docB]).length = 2 * 2 ∧
    ¬((ingestBlob splitCE (okAdd idsCE) "ns" 2 [docA, docB]).calls.length = 2 ∧
      ∀ b ∈ (ingestBlob splitCE (okAdd idsCE) "ns" 2 [docA, docB]).calls, b.length = 2) := by
  decide

/-- C4 amended: when additionally every parsed document splits into exactly one
chunk (so the buffer grows by one chunk per document and flushes exactly at the
threshold), a total of k × batch_size chunks with k ≥ 1 and batch_size ≥ 1
produces exactly k add calls of exactly batch_size documents each. -/
theorem C4_exact_batches_for_singleton_chunks (split : Document → List Document)
    (f : List Document → List String) (ns : String) (bs k : Nat) (docs : List Document)
    (hsplit : ∀ d ∈ docs, (split d).length = 1) (hk : 1 ≤ k) (hbs : 1 ≤ bs)
    (hlen : docs.length = k * bs) :
    (ingestBlob split (okAdd f) ns bs docs).calls.length = k ∧
    ∀ b ∈ (ingestBlob split (okAdd f) ns bs docs).calls, b.length = bs := by
  have h := ingestGo_singleton split f ns bs docs hsplit [] [] (by simpa using hbs)
  simp only [List.length_nil, Nat.zero_add, hlen] at h
  have hdiv : k * bs / bs = k := Nat.mul_div_cancel k (by omega)
  rw [hdiv] at h
  refine ⟨?_, ?_⟩
  · have := congrArg List.length h
    simpa using this
  · intro b hb
    have hmem : b.length ∈ List.replicate k bs := h ▸ List.mem_map_of_mem List.length hb
    exact List.eq_of_mem_replicate hmem

/-- C4 amended witness: two one-chunk documents with batch size one give two
calls of one document each. -/
theorem C4_exact_batches_for_singleton_chunks_witness :
    (∀ d ∈ [docA, docB], (splitOne d).length = 1) ∧ 1 ≤ 2 ∧ 1 ≤ 1 ∧
    [docA, docB].length = 2 * 1 ∧
    ((ingestBlob splitOne (okAdd idsCE) "ns" 1 [docA, docB]).calls.length = 2 ∧
      ∀ b ∈ (ingestBlob splitOne (okAdd idsCE) "ns" 1 [docA, docB]).calls, b.length = 1) :=
  ⟨by decide, by decide, by decide, by decide,
    C4_exact_batches_for_singleton_chunks splitOne idsCE "ns" 1 2 [docA, docB]
      (by decide) (by decide) (by decide) (by decide)⟩

/-- C5: for every input sequence, the asynchronous variant with a positive
batch size makes no call to the add operation and returns the empty identifier
list: its buffer is never populated, so every threshold check sees the empty
buffer, and the trailing flush is gated by the same condition. -/
theorem C5_aingest_persists_nothing {ε : Type} (split : Document → List Document)
    (add : List Document → Except ε (List String)) (ns : String) (bs : Nat)
    (docs : List Document) (hbs : 1 ≤ bs) :
    aingestBlob split add ns bs docs = ⟨[], .ok [], [], []⟩ :=
  aingestGo_empty_buffer split add ns bs hbs docs []

/-- C5 witness: two documents, batch size one — the asynchronous variant still
makes no call and returns the empty list. -/
theorem C5_aingest_persists_nothing_witness :
    (1 : Nat) ≤ 1 ∧
    aingestBlob splitCE (okAdd idsCE) "ns" 1 [docA, docB] = ⟨[], .ok [], [], []⟩ :=
  ⟨by decide, C5_aingest_persists_nothing splitCE (okAdd idsCE) "ns" 1 [docA, docB] (by decide)⟩

/-- C6: `ingest_blob` agrees with the specification's description of the loop:
flush exactly when, after a document's tagged chunks are appended, the buffer
has reached the batch size (send the whole buffer, collect the identifiers,
clear the buffer), attempt the final flush under the same condition, and
return the concatenation, in flush order, of the identifier lists of the
successful flushes — and both produce the same error when a flush fails. -/
theorem C6_flush_loop_matches_spec {ε : Type} (split : Document → List Document)
    (add : List Document → Except ε (List String)) (ns : String) (bs : Nat)
    (docs : List Document) :
    match specBatchingIngester split add ns bs docs with
    | .ok out => (ingestBlob split add ns bs docs).res = .ok out.1 ∧
        (ingestBlob split add ns bs docs).calls = out.2
    | .error e => (ingestBlob split add ns bs docs).res = .error e := by
  have h := ingestGo_matches_spec split add ns bs docs [] [] []
  unfold specBatchingIngester ingestBlob
  cases hspec : docs.foldlM (specProcessDoc split add ns bs) ⟨[], [], []⟩ >>=
      specFinalFlush add bs with
  | ok out =>
    rw [hspec] at h
    exact ⟨h.1, by simpa using h.2⟩
  | error e =>
    rw [hspec] at h
    exact h

/-- C7: when some add call raises, `ingest_blob` propagates exactly that error
and returns no identifier list; the call trace is the successful flushes —
which stay persisted — followed by the single failing call (no retry), and the
documents not yet consumed form a suffix of the input sequence that is never
processed. -/
theorem C7_add_error_propagates {ε : Type} (split : Document → List Document)
    (add : List Document → Except ε (List String)) (ns : String) (bs : Nat)
    (docs : List Document) (e : ε)
    (herr : (ingestBlob split add ns bs docs).res = .error e) :
    ∃ pre bad, (ingestBlob split add ns bs docs).calls = pre ++ [bad] ∧
      add bad = .error e ∧ (∀ b ∈ pre, ∃ out, add b = .ok out) ∧
      List.IsSuffix (ingestBlob split add ns bs docs).remaining docs :=
  ingestGo_error split add ns bs docs [] [] e herr

/-- C7 witness: a store that always raises, batch size one, one document — the
run ends in that error and the trace decomposes as the theorem states. -/
theorem C7_add_error_propagates_witness :
    (ingestBlob splitOne addFail "ns" 1 [docA]).res = .error "boom" ∧
    ∃ pre bad, (ingestBlob splitOne addFail "ns" 1 [docA]).calls = pre ++ [bad] ∧
      addFail bad = .error "boom" ∧ (∀ b ∈ pre, ∃ out, addFail b = .ok out) ∧
      List.IsSuffix (ingestBlob splitOne addFail "ns" 1 [docA]).remaining [docA] :=
  ⟨rfl, C7_add_error_propagates splitOne addFail "ns" 1 [docA] "boom" rfl⟩

/-- C8: the end-to-end scenario: the upload decodes to "This is a test file.",
the parser yields one document, the default splitter keeps it as one chunk;
tagged with namespace "test1" it sits alone in the buffer against the default
batch size 100, so the source makes no add call, returns the empty identifier
list, and leaves the single tagged chunk unsent — not the one persisted chunk
and one identifier the claim (and the repository's own test assertion on the
ingestion result) expects. -/
theorem C8_end_to_end_scenario_drops_chunk :
    (ingestBlob splitOne (okAdd idsCE) "test1" 100 [testFileDoc]).calls = [] ∧
    (ingestBlob splitOne (okAdd idsCE) "test1" 100 [testFileDoc]).res = .ok [] ∧
    (ingestBlob splitOne (okAdd idsCE) "test1" 100 [testFileDoc]).leftover =
      [updateDocumentMetadata testFileDoc "test1"] :=
  ⟨rfl, rfl, rfl⟩

/-- C9: with the magic library unavailable, `_guess_mimetype` fails on every
byte input with the ImportError naming the missing package and the command
that installs it, rather than returning a mime type. -/
theorem C9_missing_magic_raises_import_error (magicFromBuffer : Bytes → String)
    (fileBytes : Bytes) :
    guessMimetype false magicFromBuffer fileBytes =
      .error "magic package not found, please install it with `pip install python-magic`" := rfl

/-- C10: every batch passed to the add operation holds at least `batch_size`
documents, and a batch can exceed `batch_size`: a single document whose split
produces three chunks against batch size two is flushed as one call of three
documents. -/
theorem C10_calls_at_least_batch_size :
    (∀ (ε : Type) (split : Document → List Document)
        (add : List Document → Except ε (List String)) (ns : String) (bs : Nat)
        (docs : List Document),
      ∀ b ∈ (ingestBlob split add ns bs docs).calls, bs ≤ b.length) ∧
    ∃ b ∈ (ingestBlob splitCE (okAdd idsCE) "ns" 2 [docA]).calls, 2 < b.length := by
  constructor
  · intro ε split add ns bs docs b hb
    exact ingestGo_calls_ge split add ns bs docs [] [] b hb
  · decide

/-- C10 witness: the three-chunk flush of the possibility part indeed carries
at least the batch size of two documents. -/
theorem C10_calls_at_least_batch_size_witness :
    (2 : Nat) ≤ [Document.mk "A1" [("namespace", "ns")], Document.mk "A2" [("namespace", "ns")],
      Document.mk "A3" [("namespace", "ns")]].length :=
  C10_calls_at_least_batch_size.1 String splitCE (okAdd idsCE) "ns" 2 [docA] _ (by decide)
